import Mathlib

/-!
Shallow embedding of `src/clean_and_describe.py` (retail-superstore-analysis).

Tables are lists of column names, column dtypes and rows; a cell is
`Option Val` where `none` models pandas NaN/NaT.  Numeric values are modelled
by rationals (the usual idealisation of float64 arithmetic), dates by a
year/month/day record.  Each pipeline stage of the Python source is translated
into a Lean function below; theorems about the frozen claims follow the
definitions.

Modelling notes (scope of the embedding, stated once here):
* `pd.to_datetime(..., errors="coerce")` is modelled as an ISO `YYYY-MM-DD`
  parser degrading to `none`; numeric-epoch inputs coerce to `none` (no claim
  exercises them).
* `pd.to_numeric(..., errors="coerce")` is modelled as a decimal parser
  (optional sign, optional fraction part) degrading to `none`; scientific
  notation is out of scope (no claim exercises it).
* `.dt` accessors are modelled on date-typed cells and yield `none` on any
  other value, matching the pipeline, which only applies them to columns the
  cleaner has coerced to datetime.
-/

/-! ## Characters and strings: `str.strip`, lowering, substring test -/

def isWSChar (c : Char) : Bool :=
  c == ' ' || c == '\t' || c == '\n' || c == '\r'

def dropTrailWS (l : List Char) : List Char :=
  (l.reverse.dropWhile isWSChar).reverse

def stripChars (l : List Char) : List Char :=
  dropTrailWS (l.dropWhile isWSChar)

def strip (s : String) : String :=
  String.mk (stripChars s.data)

def lowerStr (s : String) : String :=
  String.mk (s.data.map Char.toLower)

def isPrefixChars : List Char → List Char → Bool
  | [], _ => true
  | _ :: _, [] => false
  | p :: ps, x :: xs => p == x && isPrefixChars ps xs

def containsChars (pat : List Char) : List Char → Bool
  | [] => isPrefixChars pat []
  | x :: xs => isPrefixChars pat (x :: xs) || containsChars pat xs

def dateChars : List Char := ['d', 'a', 't', 'e']

/-- Model of `"date" in c.lower()` used by the cleaner's date-coercion loop. -/
def hasDateName (s : String) : Bool :=
  containsChars dateChars (s.data.map Char.toLower)

/-! ## Number and date parsing (coercion targets) -/

def digitVal (c : Char) : Option ℕ :=
  if 48 ≤ c.toNat ∧ c.toNat ≤ 57 then some (c.toNat - 48) else none

def parseNatAux (acc : ℕ) : List Char → Option ℕ
  | [] => some acc
  | c :: cs =>
    match digitVal c with
    | some d => parseNatAux (acc * 10 + d) cs
    | none => none

def parseNatChars (l : List Char) : Option ℕ :=
  if l = [] then none else parseNatAux 0 l

def splitOnChar (sep : Char) : List Char → List (List Char)
  | [] => [[]]
  | x :: xs =>
    let r := splitOnChar sep xs
    if x == sep then [] :: r
    else
      match r with
      | [] => [[x]]
      | h :: ts => (x :: h) :: ts

structure Date where
  year : ℤ
  month : ℕ
  day : ℕ
deriving DecidableEq, Repr

def isLeap (y : ℕ) : Bool :=
  (y % 4 == 0 && y % 100 != 0) || y % 400 == 0

def monthLengths : List ℕ := [31, 28, 31, 30, 31, 30, 31, 31, 30, 31, 30, 31]

def monthOffsets : List ℕ := [0, 31, 59, 90, 120, 151, 181, 212, 243, 273, 304, 334]

def daysInMonth (y m : ℕ) : ℕ :=
  monthLengths.getD (m - 1) 0 + (if m = 2 ∧ isLeap y then 1 else 0)

def daysBeforeMonth (y m : ℕ) : ℕ :=
  monthOffsets.getD (m - 1) 0 + (if 3 ≤ m ∧ isLeap y then 1 else 0)

/-- Proleptic-Gregorian day ordinal (pandas `Timestamp` subtraction model);
meaningful for the CE dates a `Timestamp` can hold. -/
def toDays (d : Date) : ℤ :=
  let y : ℕ := d.year.toNat
  ((y - 1) * 365 + (y - 1) / 4 - (y - 1) / 100 + (y - 1) / 400
    + daysBeforeMonth y d.month + d.day : ℕ)

def parseISODate (s : String) : Option Date :=
  match (splitOnChar '-' (stripChars s.data)).map parseNatChars with
  | [some y, some m, some d] =>
    if 1 ≤ y ∧ 1 ≤ m ∧ m ≤ 12 ∧ 1 ≤ d ∧ d ≤ daysInMonth y m then
      some ⟨(y : ℤ), m, d⟩
    else none
  | _ => none

def parseQPos (l : List Char) : Option ℚ :=
  match splitOnChar '.' l with
  | [ip] => (parseNatChars ip).map (fun n => (n : ℚ))
  | [ip, fp] =>
    if fp = [] then (parseNatChars ip).map (fun n => (n : ℚ))
    else
      match parseNatChars ip, parseNatChars fp with
      | some n, some f => some ((n : ℚ) + (f : ℚ) / (10 : ℚ) ^ fp.length)
      | _, _ => none
  | _ => none

def parseQChars (l : List Char) : Option ℚ :=
  match l with
  | '-' :: rest => (parseQPos rest).map (fun q => -q)
  | _ => parseQPos l

def parseNum (s : String) : Option ℚ :=
  parseQChars (stripChars s.data)

/-! ## The data model: cells, dtypes, tables -/

inductive Val where
  | vStr (s : String)
  | vNum (q : ℚ)
  | vDate (d : Date)
deriving DecidableEq, Repr

abbrev Cell := Option Val

inductive Dtype where
  | obj
  | num
  | date
deriving DecidableEq, Repr

structure Table where
  names : List String
  dtypes : List Dtype
  rows : List (List Cell)
deriving DecidableEq, Repr

def Table.Wf (t : Table) : Prop :=
  t.dtypes.length = t.names.length ∧ ∀ r ∈ t.rows, r.length = t.names.length

instance (t : Table) : Decidable t.Wf := by
  unfold Table.Wf
  infer_instance

/-- First index of a column label, as pandas label lookup on the columns. -/
def colIdx? (ns : List String) (n : String) : Option ℕ :=
  match ns with
  | [] => none
  | x :: xs => if x = n then some 0 else (colIdx? xs n).map (fun j => j + 1)

def cellOf (ns : List String) (r : List Cell) (n : String) : Cell :=
  match colIdx? ns n with
  | some j => r.getD j none
  | none => none

def getCellByName (t : Table) (i : ℕ) (n : String) : Cell :=
  cellOf t.names (t.rows.getD i []) n

def colCells (t : Table) (n : String) : List Cell :=
  match colIdx? t.names n with
  | some j => t.rows.map (fun r => r.getD j none)
  | none => []

/-! ## Column-name constants of the source -/

def nOrderDate : String := "Order Date"
def nShipDate : String := "Ship Date"
def nSales : String := "Sales"
def nProfit : String := "Profit"
def nDiscount : String := "Discount"
def nQuantity : String := "Quantity"
def nPostalCode : String := "Postal Code"
def nCategory : String := "Category"
def nSubCategory : String := "Sub-Category"
def nRegion : String := "Region"
def nState : String := "State"
def nProductName : String := "Product Name"
def nOrderYear : String := "OrderYear"
def nOrderMonth : String := "OrderMonth"
def nShipDelayDays : String := "ShipDelayDays"
def nProfitMargin : String := "ProfitMargin"

def numericCols : List String := [nSales, nProfit, nDiscount, nQuantity, nPostalCode]

def essNames : List String := [nOrderDate, nSales, nProfit]

/-! ## `load_data` -/

inductive LoadError where
  | notFound
  | unsupported
deriving DecidableEq, Repr

/-- An input path together with what reading it would yield: `csvData` models
`pd.read_csv`, `excelOrders` models `pd.read_excel(path, sheet_name="Orders")`
(`none` when that call raises), `excelDefault` the sheet-less fallback read. -/
structure InputFile where
  pathExists : Bool
  suffix : String
  csvData : Table
  excelOrders : Option Table
  excelDefault : Table

def extLower (f : InputFile) : String := lowerStr f.suffix

def load_data (f : InputFile) : Except LoadError Table :=
  if f.pathExists = false then Except.error LoadError.notFound
  else if extLower f = ".csv" then Except.ok f.csvData
  else if extLower f = ".xlsx" ∨ extLower f = ".xls" then
    match f.excelOrders with
    | some t => Except.ok t
    | none => Except.ok f.excelDefault
  else Except.error LoadError.unsupported

/-! ## `basic_clean` -/

def cellToString (c : Cell) : String :=
  match c with
  | none => "nan"
  | some (Val.vStr s) => s
  | some (Val.vNum q) => toString q.num ++ (if q.den = 1 then ("") else ("/") ++ toString q.den)
  | some (Val.vDate d) => toString d.year ++ "-" ++ toString d.month ++ "-" ++ toString d.day

def dateCoerce (c : Cell) : Cell :=
  match c with
  | some (Val.vDate d) => some (Val.vDate d)
  | some (Val.vStr s) => (parseISODate s).map Val.vDate
  | some (Val.vNum _) => none
  | none => none

def numCoerce (c : Cell) : Cell :=
  match c with
  | some (Val.vNum q) => some (Val.vNum q)
  | some (Val.vStr s) => (parseNum s).map Val.vNum
  | some (Val.vDate _) => none
  | none => none

def stringifyCell (c : Cell) : Cell :=
  some (Val.vStr (strip (cellToString c)))

/-- Per-column action of the cleaner's coercion block: date-named columns get
`pd.to_datetime`, the named numeric columns get `pd.to_numeric`, remaining
object columns get `astype(str).str.strip()`. -/
def colStep (n : String) (dt : Dtype) : (Cell → Cell) × Dtype :=
  if hasDateName n then (dateCoerce, Dtype.date)
  else if n ∈ numericCols then (numCoerce, Dtype.num)
  else if dt = Dtype.obj then (stringifyCell, Dtype.obj)
  else (id, dt)

def mkSteps (ns : List String) (ds : List Dtype) : List ((Cell → Cell) × Dtype) :=
  (ns.zip ds).map (fun p => colStep p.1 p.2)

def applySteps (steps : List ((Cell → Cell) × Dtype)) (r : List Cell) : List Cell :=
  List.zipWith (fun s c => s.1 c) steps r

/-- Model of `df.drop_duplicates()`: keep the first occurrence of each row. -/
def dedupAux {α : Type} [DecidableEq α] (seen : List α) : List α → List α
  | [] => []
  | x :: xs => if x ∈ seen then dedupAux seen xs else x :: dedupAux (x :: seen) xs

def dedup {α : Type} [DecidableEq α] (l : List α) : List α :=
  dedupAux [] l

/-- Model of `essential = [c for c in [...] if c in df.columns]` in the cleaner. -/
def essPresent (ns : List String) : List String :=
  essNames.filter (fun c => decide (c ∈ ns))

/-- The cleaner's final step: `df.dropna(subset=essential)` guarded by
`if essential:`. -/
def dropEssential (ns : List String) (rows : List (List Cell)) : List (List Cell) :=
  if essPresent ns = [] then rows
  else rows.filter (fun r =>
    (ns.zip r).all (fun p => !(decide (p.1 ∈ essPresent ns)) || p.2.isSome))

def basic_clean (t : Table) : Table :=
  let ns := t.names.map strip
  let steps := mkSteps ns t.dtypes
  let rows1 := t.rows.map (fun r => applySteps steps r)
  Table.mk ns (steps.map (fun s => s.2)) (dropEssential ns (dedup rows1))

/-! ## `feature_engineering` -/

def yearCell (c : Cell) : Cell :=
  match c with
  | some (Val.vDate d) => some (Val.vNum (d.year : ℚ))
  | _ => none

def monthCell (c : Cell) : Cell :=
  match c with
  | some (Val.vDate d) => some (Val.vDate ⟨d.year, d.month, 1⟩)
  | _ => none

def delayCell (s o : Cell) : Cell :=
  match s, o with
  | some (Val.vDate ds), some (Val.vDate od) =>
    some (Val.vNum ((toDays ds - toDays od : ℤ) : ℚ))
  | _, _ => none

/-- Model of `np.where(df["Sales"] != 0, df["Profit"] / df["Sales"], np.nan)` at one row:
a zero Sales yields NaN; NaN in either operand propagates to NaN. -/
def pmCell (s p : Cell) : Cell :=
  match s with
  | some (Val.vNum sq) =>
    if sq = 0 then none
    else
      match p with
      | some (Val.vNum pq) => some (Val.vNum (pq / sq))
      | _ => none
  | _ => none

/-- Model of `df[name] = ...`: overwrite the column if the label exists, else append. -/
def setCol (t : Table) (n : String) (dt : Dtype) (f : List Cell → Cell) : Table :=
  match colIdx? t.names n with
  | some j => Table.mk t.names (t.dtypes.set j dt) (t.rows.map (fun r => r.set j (f r)))
  | none =>
    Table.mk (t.names ++ [n]) (t.dtypes ++ [dt]) (t.rows.map (fun r => r ++ [f r]))

def feStage1 (t : Table) : Table :=
  if nOrderDate ∈ t.names then
    let ta := setCol t nOrderYear Dtype.num (fun r => yearCell (cellOf t.names r nOrderDate))
    setCol ta nOrderMonth Dtype.date (fun r => monthCell (cellOf ta.names r nOrderDate))
  else t

def feStage2 (t : Table) : Table :=
  if nOrderDate ∈ t.names ∧ nShipDate ∈ t.names then
    setCol t nShipDelayDays Dtype.num
      (fun r => delayCell (cellOf t.names r nShipDate) (cellOf t.names r nOrderDate))
  else t

def feStage3 (t : Table) : Table :=
  if nSales ∈ t.names ∧ nProfit ∈ t.names then
    setCol t nProfitMargin Dtype.num
      (fun r => pmCell (cellOf t.names r nSales) (cellOf t.names r nProfit))
  else t

def feature_engineering (t : Table) : Table :=
  feStage3 (feStage2 (feStage1 t))

/-! ## `compute_kpis` -/

def sumNum (rows : List (List Cell)) (j : ℕ) : ℚ :=
  (rows.map (fun r =>
    match r.getD j none with
    | some (Val.vNum q) => q
    | _ => 0)).sum

def colSum (t : Table) (n : String) : ℚ :=
  match colIdx? t.names n with
  | some j => sumNum t.rows j
  | none => 0

def Date.le (a b : Date) : Prop :=
  a.year < b.year ∨ (a.year = b.year ∧ (a.month < b.month ∨ (a.month = b.month ∧ a.day ≤ b.day)))

instance (a b : Date) : Decidable (Date.le a b) := by
  unfold Date.le
  infer_instance

def minD (a b : Date) : Date := if Date.le a b then a else b

def maxD (a b : Date) : Date := if Date.le a b then b else a

def padZero (k : ℕ) (s : String) : String :=
  String.mk (List.replicate (k - s.data.length) '0' ++ s.data)

/-- Model of `Timestamp.strftime("%Y-%m-%d")` (years of a pandas `Timestamp` are CE). -/
def isoFormat (d : Date) : String :=
  padZero 4 (toString d.year.toNat) ++ "-" ++ padZero 2 (toString d.month)
    ++ "-" ++ padZero 2 (toString d.day)

def datesOf (t : Table) (n : String) : List Date :=
  (colCells t n).filterMap (fun c =>
    match c with
    | some (Val.vDate d) => some d
    | _ => none)

structure KPIs where
  total_sales : Option ℚ
  total_profit : Option ℚ
  overall_profit_margin : Option ℚ
  date_range : Option (String × String)
deriving DecidableEq, Repr

def dateRangeOf (t : Table) : Option (String × String) :=
  if nOrderDate ∈ t.names ∧ (colCells t nOrderDate).any (fun c => c.isSome) then
    match datesOf t nOrderDate with
    | [] => none
    | d0 :: ds => some (isoFormat (ds.foldl minD d0), isoFormat (ds.foldl maxD d0))
  else none

def compute_kpis (t : Table) : KPIs :=
  { total_sales := if nSales ∈ t.names then some (colSum t nSales) else none
    total_profit := if nProfit ∈ t.names then some (colSum t nProfit) else none
    overall_profit_margin :=
      if nSales ∈ t.names ∧ nProfit ∈ t.names ∧ colSum t nSales ≠ 0 then
        some (colSum t nProfit / colSum t nSales)
      else none
    date_range := dateRangeOf t }

/-! ## `aggregates` -/

structure GroupRow where
  key : Val
  sales : ℚ
  profit : ℚ
  margin : Option ℚ
deriving DecidableEq, Repr

/-- Descending-by-Sales order used by `sort_values("Sales", ascending=False)`. -/
def salesGE (a b : GroupRow) : Prop := b.sales ≤ a.sales

instance : DecidableRel salesGE :=
  fun a b => inferInstanceAs (Decidable (b.sales ≤ a.sales))

instance : IsTotal GroupRow salesGE :=
  ⟨fun a b => le_total b.sales a.sales⟩

instance : IsTrans GroupRow salesGE :=
  ⟨fun _ _ _ h1 h2 => le_trans h2 h1⟩

/-- Model of `df.groupby(key)[["Sales","Profit"]].sum().assign(ProfitMargin=...)`:
one row per distinct non-null key, Sales and Profit summed with NaN as 0,
margin recomputed under the same zero guard. -/
def groupsOn (t : Table) (keyName : String) : List GroupRow :=
  match colIdx? t.names keyName, colIdx? t.names nSales, colIdx? t.names nProfit with
  | some ki, some si, some pj =>
    let keys := dedup (t.rows.filterMap (fun r => r.getD ki none))
    keys.map (fun k =>
      let grp := t.rows.filter (fun r => decide (r.getD ki none = some k))
      let s := sumNum grp si
      let p := sumNum grp pj
      GroupRow.mk k s p (if s ≠ 0 then some (p / s) else none))
  | _, _, _ => []

def aggrOn (t : Table) (keyName : String) : List GroupRow :=
  List.insertionSort salesGE (groupsOn t keyName)

def groupTables (t : Table) : List (String × List GroupRow) :=
  (if nCategory ∈ t.names ∧ nSales ∈ t.names ∧ nProfit ∈ t.names then
    [("by_category", aggrOn t nCategory)] else [])
  ++ (if nSubCategory ∈ t.names ∧ nSales ∈ t.names ∧ nProfit ∈ t.names then
    [("by_subcategory", aggrOn t nSubCategory)] else [])
  ++ (if nRegion ∈ t.names ∧ nSales ∈ t.names ∧ nProfit ∈ t.names then
    [("by_region", aggrOn t nRegion)] else [])
  ++ (if nState ∈ t.names ∧ nSales ∈ t.names ∧ nProfit ∈ t.names then
    [("by_state", aggrOn t nState)] else [])

def monthLE (a b : Date × ℚ) : Prop := Date.le a.1 b.1

instance : DecidableRel monthLE :=
  fun a b => inferInstanceAs (Decidable (Date.le a.1 b.1))

def monthlySales (t : Table) : List (Date × ℚ) :=
  match colIdx? t.names nOrderMonth, colIdx? t.names nSales with
  | some mi, some si =>
    let ms := dedup (t.rows.filterMap (fun r =>
      match r.getD mi none with
      | some (Val.vDate d) => some d
      | _ => none))
    List.insertionSort monthLE (ms.map (fun m =>
      (m, sumNum (t.rows.filter (fun r => decide (r.getD mi none = some (Val.vDate m)))) si)))
  | _, _ => []

def topProducts (t : Table) : Option (List GroupRow) :=
  if nProductName ∈ t.names ∧ nSales ∈ t.names ∧ nProfit ∈ t.names then
    some ((aggrOn t nProductName).take 10)
  else none

def aggregates (t : Table) :
    List (String × List GroupRow) × Option (List (Date × ℚ)) × Option (List GroupRow) :=
  (groupTables t,
   if nOrderMonth ∈ t.names ∧ nSales ∈ t.names then some (monthlySales t) else none,
   topProducts t)

/-! ## `save_artifacts` data dictionary: per-column missing count -/

def nMissing (t : Table) (j : ℕ) : ℕ :=
  ((t.rows.map (fun r => r.getD j none)).filter (fun c => c.isNone)).length

/-- Default row used with `List.getD` when stating sortedness of group tables. -/
def gdefault : GroupRow := GroupRow.mk (Val.vStr ("")) 0 0 none

/-- Bool test used to state that a column holds only dates or nulls. -/
def isDateCell (c : Cell) : Bool :=
  match c with
  | none => true
  | some (Val.vDate _) => true
  | _ => false

/-- The concrete two-row CSV of the spec scenario, as `pd.read_csv` types it:
date columns arrive as text, Sales and Profit as numbers. -/
def sampleTable : Table :=
  Table.mk [nOrderDate, nShipDate, nSales, nProfit, nCategory]
    [Dtype.obj, Dtype.obj, Dtype.num, Dtype.num, Dtype.obj]
    [[some (Val.vStr ("2023-01-05")), some (Val.vStr ("2023-01-10")),
      some (Val.vNum 100), some (Val.vNum 20), some (Val.vStr ("Tech"))],
     [some (Val.vStr ("2023-01-20")), some (Val.vStr ("2023-01-25")),
      some (Val.vNum 50), some (Val.vNum (-10)), some (Val.vStr ("Tech"))]]

def sampleClean : Table := basic_clean sampleTable

def sampleFeat : Table := feature_engineering sampleClean

/-- Concrete table for exercising the margin guard (claim C1). -/
def wtC1 : Table :=
  Table.mk [nCategory, nSales, nProfit] [Dtype.obj, Dtype.num, Dtype.num]
    [[some (Val.vStr ("A")), some (Val.vNum 4), some (Val.vNum 1)]]

/-- Concrete table with two categories (claim C2). -/
def wtC2 : Table :=
  Table.mk [nCategory, nSales, nProfit] [Dtype.obj, Dtype.num, Dtype.num]
    [[some (Val.vStr ("A")), some (Val.vNum 1), some (Val.vNum 2)],
     [some (Val.vStr ("B")), some (Val.vNum 5), some (Val.vNum 3)]]

/-- Concrete table with one product (claim C3). -/
def wtC3 : Table :=
  Table.mk [nProductName, nSales, nProfit] [Dtype.obj, Dtype.num, Dtype.num]
    [[some (Val.vStr ("X")), some (Val.vNum 3), some (Val.vNum 1)]]

/-- Concrete rows for the essential-row filter (claim C5). -/
def wtC5rows : List (List Cell) := [[none], [some (Val.vNum 1)]]

/-- Concrete table with a date-typed Order Date column (claim C6). -/
def wtC6 : Table :=
  Table.mk [nOrderDate, nSales, nProfit] [Dtype.date, Dtype.num, Dtype.num]
    [[some (Val.vDate (Date.mk 2023 1 5)), some (Val.vNum 100), some (Val.vNum 20)],
     [some (Val.vDate (Date.mk 2023 2 7)), none, some (Val.vNum 3)]]

/-- Concrete table with a nullable text column (claim C10). -/
def wtC10 : Table :=
  Table.mk [nRegion, nSales] [Dtype.obj, Dtype.num]
    [[none, some (Val.vNum 1)], [some (Val.vStr (" West ")), some (Val.vNum 2)]]

/-! ## List helper lemmas -/

theorem getD_set_self {α : Type} (l : List α) (i : ℕ) (a d : α) (h : i < l.length) :
    (l.set i a).getD i d = a := by
  simp [List.getD_eq_getElem?_getD, List.getElem?_set_self', h]

theorem getD_set_ne {α : Type} (l : List α) (i j : ℕ) (a d : α) (h : i ≠ j) :
    (l.set i a).getD j d = l.getD j d := by
  simp [List.getD_eq_getElem?_getD, List.getElem?_set_ne h]

theorem getD_append_lt {α : Type} (l l2 : List α) (j : ℕ) (d : α) (h : j < l.length) :
    (l ++ l2).getD j d = l.getD j d := by
  simp [List.getD_eq_getElem?_getD, List.getElem?_append_left h]

theorem getD_append_self {α : Type} (l : List α) (v d : α) :
    (l ++ [v]).getD l.length d = v := by
  simp [List.getD_eq_getElem?_getD]

theorem getD_map {α β : Type} (f : α → β) (l : List α) (i : ℕ) (d : β) (d' : α)
    (h : i < l.length) : (l.map f).getD i d = f (l.getD i d') := by
  simp [List.getD_eq_getElem?_getD, List.getElem?_map, h, List.getElem?_eq_getElem,
    List.getD_eq_getElem l d' h]

theorem getD_mem_of_lt {α : Type} (l : List α) (i : ℕ) (d : α) (h : i < l.length) :
    l.getD i d ∈ l := by
  rw [List.getD_eq_getElem l d h]
  exact List.getElem_mem h

theorem getD_zipWith {α β γ : Type} (f : α → β → γ) :
    ∀ (as : List α) (bs : List β) (j : ℕ) (d : γ) (da : α) (db : β),
      j < as.length → j < bs.length →
      (List.zipWith f as bs).getD j d = f (as.getD j da) (bs.getD j db)
  | [], _, _, _, _, _, ha, _ => absurd ha (by simp)
  | _ :: _, [], _, _, _, _, _, hb => absurd hb (by simp)
  | a :: as, b :: bs, 0, d, da, db, _, _ => rfl
  | a :: as, b :: bs, j + 1, d, da, db, ha, hb => by
    simpa using getD_zipWith f as bs j d da db (by simpa using ha) (by simpa using hb)

/-! ## `str.strip` is idempotent -/

theorem dropWhile_head_false {α : Type} (p : α → Bool) :
    ∀ (l : List α) (c : α) (t : List α), l.dropWhile p = c :: t → p c = false
  | [], c, t, h => by simp at h
  | x :: xs, c, t, h => by
    rw [List.dropWhile_cons] at h
    by_cases hx : p x
    · exact dropWhile_head_false p xs c t (by simpa [hx] using h)
    · simp [hx] at h
      obtain ⟨h1, _⟩ := h
      subst h1
      simpa using hx

theorem dropWhile_dropWhile {α : Type} (p : α → Bool) (l : List α) :
    (l.dropWhile p).dropWhile p = l.dropWhile p := by
  cases h : l.dropWhile p with
  | nil => rfl
  | cons c t =>
    have hc := dropWhile_head_false p l c t h
    rw [List.dropWhile_cons, hc]
    simp

theorem dropWhile_isSuffix {α : Type} (p : α → Bool) :
    ∀ l : List α, List.IsSuffix (l.dropWhile p) l
  | [] => List.nil_suffix
  | x :: xs => by
    rw [List.dropWhile_cons]
    by_cases hx : p x
    · simpa [hx] using (dropWhile_isSuffix p xs).trans (List.suffix_cons x xs)
    · simp [hx]

theorem dropTrailWS_dropTrailWS (l : List Char) :
    dropTrailWS (dropTrailWS l) = dropTrailWS l := by
  unfold dropTrailWS
  rw [List.reverse_reverse, dropWhile_dropWhile]

theorem stripChars_idem (l : List Char) : stripChars (stripChars l) = stripChars l := by
  unfold stripChars
  have hA : (dropTrailWS (l.dropWhile isWSChar)).dropWhile isWSChar
      = dropTrailWS (l.dropWhile isWSChar) := by
    cases hs : dropTrailWS (l.dropWhile isWSChar) with
    | nil => rfl
    | cons c t =>
      have hpre : List.IsPrefix (dropTrailWS (l.dropWhile isWSChar)) (l.dropWhile isWSChar) := by
        have hsfx := dropWhile_isSuffix isWSChar (l.dropWhile isWSChar).reverse
        have := List.reverse_prefix.mpr hsfx
        simpa [dropTrailWS] using this
      rw [hs] at hpre
      obtain ⟨rest, hrest⟩ := hpre
      have hc : isWSChar c = false :=
        dropWhile_head_false isWSChar l c (t ++ rest) (by rw [← hrest]; simp)
      rw [List.dropWhile_cons, hc]
      simp
  rw [hA, dropTrailWS_dropTrailWS]

theorem strip_idem (s : String) : strip (strip s) = strip s := by
  unfold strip
  exact congrArg String.mk (stripChars_idem s.data)

/-! ## `dedup` (drop_duplicates) lemmas -/

theorem dedupAux_subset {α : Type} [DecidableEq α] :
    ∀ (l seen : List α) (x : α), x ∈ dedupAux seen l → x ∈ l
  | [], _, x, h => by simpa [dedupAux] using h
  | y :: ys, seen, x, h => by
    by_cases hy : y ∈ seen
    · simp only [dedupAux, if_pos hy] at h
      exact List.mem_cons_of_mem y (dedupAux_subset ys seen x h)
    · simp only [dedupAux, if_neg hy] at h
      rcases List.mem_cons.mp h with h1 | h2
      · exact h1 ▸ List.mem_cons_self y ys
      · exact List.mem_cons_of_mem y (dedupAux_subset ys (y :: seen) x h2)

theorem dedupAux_nodup {α : Type} [DecidableEq α] :
    ∀ (l seen : List α), (dedupAux seen l).Nodup ∧ ∀ x ∈ dedupAux seen l, x ∉ seen
  | [], seen => by simp [dedupAux]
  | y :: ys, seen => by
    by_cases hy : y ∈ seen
    · simpa [dedupAux, if_pos hy] using dedupAux_nodup ys seen
    · have ih := dedupAux_nodup ys (y :: seen)
      simp only [dedupAux, if_neg hy]
      constructor
      · refine List.nodup_cons.mpr ⟨?_, ih.1⟩
        intro hmem
        exact (ih.2 y hmem) (List.mem_cons_self y seen)
      · intro x hx
        rcases List.mem_cons.mp hx with h1 | h2
        · exact h1 ▸ hy
        · intro hxs
          exact (ih.2 x h2) (List.mem_cons_of_mem y hxs)

theorem dedup_nodup {α : Type} [DecidableEq α] (l : List α) : (dedup l).Nodup :=
  (dedupAux_nodup l []).1

theorem dedup_subset {α : Type} [DecidableEq α] (l : List α) (x : α)
    (h : x ∈ dedup l) : x ∈ l :=
  dedupAux_subset l [] x h

theorem dedupAux_eq_self {α : Type} [DecidableEq α] :
    ∀ (l seen : List α), l.Nodup → (∀ x ∈ l, x ∉ seen) → dedupAux seen l = l
  | [], _, _, _ => rfl
  | y :: ys, seen, hnd, hdis => by
    have hy : y ∉ seen := hdis y (List.mem_cons_self y ys)
    rw [dedupAux, if_neg hy]
    congr 1
    refine dedupAux_eq_self ys (y :: seen) (List.nodup_cons.mp hnd).2 ?_
    intro x hx
    intro hmem
    rcases List.mem_cons.mp hmem with h1 | h2
    · exact (List.nodup_cons.mp hnd).1 (h1 ▸ hx)
    · exact hdis x (List.mem_cons_of_mem y hx) h2

theorem dedup_eq_self_of_nodup {α : Type} [DecidableEq α] (l : List α) (h : l.Nodup) :
    dedup l = l :=
  dedupAux_eq_self l [] h (by simp)

/-! ## `colIdx?` lemmas -/

theorem colIdx?_lt (n : String) :
    ∀ (ns : List String) (j : ℕ), colIdx? ns n = some j → j < ns.length
  | [], j, h => by simp [colIdx?] at h
  | x :: xs, j, h => by
    by_cases hx : x = n
    · simp only [colIdx?, if_pos hx, Option.some.injEq] at h
      simp only [List.length_cons]
      omega
    · simp only [colIdx?, if_neg hx, Option.map_eq_some'] at h
      obtain ⟨j', hj', rfl⟩ := h
      have := colIdx?_lt n xs j' hj'
      simp only [List.length_cons]
      omega

theorem colIdx?_get (n : String) :
    ∀ (ns : List String) (j : ℕ) (h : colIdx? ns n = some j),
      ∃ hj : j < ns.length, ns.get ⟨j, hj⟩ = n
  | [], j, h => by simp [colIdx?] at h
  | x :: xs, j, h => by
    by_cases hx : x = n
    · simp only [colIdx?, if_pos hx, Option.some.injEq] at h
      subst h
      exact ⟨by simp, hx⟩
    · simp only [colIdx?, if_neg hx, Option.map_eq_some'] at h
      obtain ⟨j', hj', rfl⟩ := h
      obtain ⟨hlt, hget⟩ := colIdx?_get n xs j' hj'
      exact ⟨by simpa using Nat.succ_lt_succ hlt, hget⟩

theorem colIdx?_eq_none_iff (n : String) :
    ∀ ns : List String, colIdx? ns n = none ↔ n ∉ ns
  | [] => by simp [colIdx?]
  | x :: xs => by
    by_cases hx : x = n
    · simp [colIdx?, if_pos hx, hx]
    · simp only [colIdx?, if_neg hx, Option.map_eq_none', List.mem_cons]
      rw [colIdx?_eq_none_iff n xs]
      constructor
      · intro h hmem
        rcases hmem with h1 | h2
        · exact hx h1.symm
        · exact h h2
      · intro h hmem
        exact h (Or.inr hmem)

theorem colIdx?_append_some (n : String) :
    ∀ (ns ms : List String) (j : ℕ), colIdx? ns n = some j → colIdx? (ns ++ ms) n = some j
  | [], _, j, h => by simp [colIdx?] at h
  | x :: xs, ms, j, h => by
    by_cases hx : x = n
    · simp only [colIdx?, if_pos hx, Option.some.injEq] at h
      simp [colIdx?, if_pos hx, h]
    · simp only [colIdx?, if_neg hx, Option.map_eq_some'] at h
      obtain ⟨j', hj', rfl⟩ := h
      have := colIdx?_append_some n xs ms j' hj'
      simp [colIdx?, if_neg hx, this]

theorem colIdx?_append_sing_self (n : String) :
    ∀ ns : List String, n ∉ ns → colIdx? (ns ++ [n]) n = some ns.length
  | [], _ => by simp [colIdx?]
  | x :: xs, h => by
    have hx : x ≠ n := fun hc => h (hc ▸ List.mem_cons_self x xs)
    have hnx : n ∉ xs := fun hc => h (List.mem_cons_of_mem x hc)
    simp [colIdx?, if_neg hx, colIdx?_append_sing_self n xs hnx]

theorem colIdx?_append_sing_ne (m n : String) (hne : m ≠ n) :
    ∀ ns : List String, m ∉ ns → colIdx? (ns ++ [n]) m = none
  | [], _ => by
    have hnm : n ≠ m := fun h => hne h.symm
    simp [colIdx?, hnm]
  | x :: xs, h => by
    have hx : x ≠ m := fun hc => h (hc ▸ List.mem_cons_self x xs)
    have hnx : m ∉ xs := fun hc => h (List.mem_cons_of_mem x hc)
    simp [colIdx?, if_neg hx, colIdx?_append_sing_ne m n hne xs hnx]

/-! ## `setCol` lemmas -/

theorem rowLen_of_wf (t : Table) (hwf : t.Wf) (i : ℕ) (hi : i < t.rows.length) :
    (t.rows.getD i []).length = t.names.length :=
  hwf.2 (t.rows.getD i []) (getD_mem_of_lt t.rows i [] hi)

theorem setCol_names_mem (t : Table) (n : String) (dt : Dtype) (f : List Cell → Cell)
    (m : String) (h : m ∈ t.names) : m ∈ (setCol t n dt f).names := by
  unfold setCol
  cases hc : colIdx? t.names n with
  | some j => exact h
  | none => exact List.mem_append_left _ h

theorem setCol_rows_length (t : Table) (n : String) (dt : Dtype) (f : List Cell → Cell) :
    (setCol t n dt f).rows.length = t.rows.length := by
  unfold setCol
  cases hc : colIdx? t.names n <;> simp

theorem setCol_wf (t : Table) (n : String) (dt : Dtype) (f : List Cell → Cell)
    (hwf : t.Wf) : (setCol t n dt f).Wf := by
  unfold setCol
  cases hc : colIdx? t.names n with
  | some j =>
    refine ⟨by simpa using hwf.1, ?_⟩
    intro r hr
    simp only [List.mem_map] at hr
    obtain ⟨r0, hr0, rfl⟩ := hr
    simpa using hwf.2 r0 hr0
  | none =>
    refine ⟨by simp [hwf.1], ?_⟩
    intro r hr
    simp only [List.mem_map] at hr
    obtain ⟨r0, hr0, rfl⟩ := hr
    simp [hwf.2 r0 hr0]

theorem getCellByName_setCol_same (t : Table) (n : String) (dt : Dtype)
    (f : List Cell → Cell) (hwf : t.Wf) (i : ℕ) (hi : i < t.rows.length) :
    getCellByName (setCol t n dt f) i n = f (t.rows.getD i []) := by
  have hr : (t.rows.getD i []).length = t.names.length := rowLen_of_wf t hwf i hi
  unfold getCellByName cellOf setCol
  cases hc : colIdx? t.names n with
  | some j =>
    have hj := colIdx?_lt n t.names j hc
    simp only
    rw [hc]
    rw [getD_map (fun r => r.set j (f r)) t.rows i [] [] hi]
    exact getD_set_self _ j _ none (by omega)
  | none =>
    have hn : n ∉ t.names := (colIdx?_eq_none_iff n t.names).mp hc
    simp only
    rw [colIdx?_append_sing_self n t.names hn]
    rw [getD_map (fun r => r ++ [f r]) t.rows i [] [] hi]
    rw [← hr]
    exact getD_append_self _ _ none

theorem getCellByName_setCol_other (t : Table) (n : String) (dt : Dtype)
    (f : List Cell → Cell) (m : String) (hm : m ≠ n) (hwf : t.Wf) (i : ℕ)
    (hi : i < t.rows.length) :
    getCellByName (setCol t n dt f) i m = getCellByName t i m := by
  have hr : (t.rows.getD i []).length = t.names.length := rowLen_of_wf t hwf i hi
  unfold getCellByName cellOf setCol
  cases hc : colIdx? t.names n with
  | some j =>
    simp only
    rw [getD_map (fun r => r.set j (f r)) t.rows i [] [] hi]
    cases hcm : colIdx? t.names m with
    | some jm =>
      have hne : j ≠ jm := by
        intro heq
        obtain ⟨hlt1, hget1⟩ := colIdx?_get n t.names j hc
        obtain ⟨hlt2, hget2⟩ := colIdx?_get m t.names jm hcm
        subst heq
        exact hm (hget2 ▸ hget1 ▸ rfl)
      exact getD_set_ne _ j jm _ none hne
    | none => rfl
  | none =>
    have hn : n ∉ t.names := (colIdx?_eq_none_iff n t.names).mp hc
    simp only
    rw [getD_map (fun r => r ++ [f r]) t.rows i [] [] hi]
    cases hcm : colIdx? t.names m with
    | some jm =>
      rw [colIdx?_append_some m t.names [n] jm hcm]
      have hlt := colIdx?_lt m t.names jm hcm
      exact getD_append_lt _ _ jm none (by omega)
    | none =>
      have hmn : m ∉ t.names := (colIdx?_eq_none_iff m t.names).mp hcm
      rw [colIdx?_append_sing_ne m n hm t.names hmn]

/-! ## Feature-stage preservation lemmas -/

theorem feStage1_props (t : Table) (hwf : t.Wf) :
    (feStage1 t).Wf ∧ (feStage1 t).rows.length = t.rows.length
    ∧ (∀ m, m ∈ t.names → m ∈ (feStage1 t).names)
    ∧ (∀ i, i < t.rows.length → ∀ m, m ≠ nOrderYear → m ≠ nOrderMonth →
        getCellByName (feStage1 t) i m = getCellByName t i m) := by
  unfold feStage1
  by_cases hc : nOrderDate ∈ t.names
  · simp only [if_pos hc]
    have hwf1 := setCol_wf t nOrderYear Dtype.num
      (fun r => yearCell (cellOf t.names r nOrderDate)) hwf
    refine ⟨setCol_wf _ nOrderMonth Dtype.date _ hwf1, ?_, ?_, ?_⟩
    · rw [setCol_rows_length, setCol_rows_length]
    · intro m hm
      exact setCol_names_mem _ _ _ _ m (setCol_names_mem _ _ _ _ m hm)
    · intro i hi m hm1 hm2
      have hi1 : i < (setCol t nOrderYear Dtype.num
          (fun r => yearCell (cellOf t.names r nOrderDate))).rows.length := by
        rw [setCol_rows_length]; exact hi
      rw [getCellByName_setCol_other _ nOrderMonth Dtype.date _ m hm2 hwf1 i hi1]
      exact getCellByName_setCol_other t nOrderYear Dtype.num _ m hm1 hwf i hi
  · rw [if_neg hc]
    exact ⟨hwf, rfl, fun m hm => hm, fun i hi m hm1 hm2 => rfl⟩

theorem feStage2_props (t : Table) (hwf : t.Wf) :
    (feStage2 t).Wf ∧ (feStage2 t).rows.length = t.rows.length
    ∧ (∀ m, m ∈ t.names → m ∈ (feStage2 t).names)
    ∧ (∀ i, i < t.rows.length → ∀ m, m ≠ nShipDelayDays →
        getCellByName (feStage2 t) i m = getCellByName t i m) := by
  unfold feStage2
  by_cases hc : nOrderDate ∈ t.names ∧ nShipDate ∈ t.names
  · simp only [if_pos hc]
    refine ⟨setCol_wf _ nShipDelayDays Dtype.num _ hwf, setCol_rows_length _ _ _ _,
      fun m hm => setCol_names_mem _ _ _ _ m hm, ?_⟩
    intro i hi m hm
    exact getCellByName_setCol_other t nShipDelayDays Dtype.num _ m hm hwf i hi
  · rw [if_neg hc]
    exact ⟨hwf, rfl, fun m hm => hm, fun i hi m hm => rfl⟩

theorem feStage3_margin (t : Table) (hwf : t.Wf) (hs : nSales ∈ t.names)
    (hp : nProfit ∈ t.names) (i : ℕ) (hi : i < t.rows.length) :
    getCellByName (feStage3 t) i nProfitMargin
      = pmCell (getCellByName t i nSales) (getCellByName t i nProfit) := by
  unfold feStage3
  simp only [if_pos (And.intro hs hp)]
  exact getCellByName_setCol_same t nProfitMargin Dtype.num _ hwf i hi

/-! ## Aggregation lemmas -/

theorem aggrOn_sorted (t : Table) (keyName : String) :
    List.Sorted salesGE (aggrOn t keyName) :=
  List.sorted_insertionSort salesGE (groupsOn t keyName)

theorem groupsOn_margin (t : Table) (keyName : String) (g : GroupRow)
    (hg : g ∈ groupsOn t keyName) :
    g.margin = if g.sales = 0 then none else some (g.profit / g.sales) := by
  unfold groupsOn at hg
  rcases hk : colIdx? t.names keyName with _ | ki
  · rw [hk] at hg; simp at hg
  rcases hsi : colIdx? t.names nSales with _ | si
  · rw [hk, hsi] at hg; simp at hg
  rcases hpj : colIdx? t.names nProfit with _ | pj
  · rw [hk, hsi, hpj] at hg; simp at hg
  rw [hk, hsi, hpj] at hg
  simp only [List.mem_map] at hg
  obtain ⟨k, _, rfl⟩ := hg
  simp only
  by_cases hz : sumNum (t.rows.filter (fun r => decide (r.getD ki none = some k))) si = 0
  · simp [hz]
  · simp [hz]

theorem aggrOn_margin (t : Table) (keyName : String) (g : GroupRow)
    (hg : g ∈ aggrOn t keyName) :
    g.margin = if g.sales = 0 then none else some (g.profit / g.sales) :=
  groupsOn_margin t keyName g ((List.mem_insertionSort salesGE).mp hg)

theorem groupTables_cases (t : Table) (pr : String × List GroupRow)
    (hpr : pr ∈ groupTables t) : ∃ k, pr.2 = aggrOn t k := by
  unfold groupTables at hpr
  rcases List.mem_append.mp hpr with h1 | h4
  · rcases List.mem_append.mp h1 with h2 | h3
    · rcases List.mem_append.mp h2 with ha | hb
      · refine ⟨nCategory, ?_⟩
        by_cases hc : nCategory ∈ t.names ∧ nSales ∈ t.names ∧ nProfit ∈ t.names
        · rw [if_pos hc] at ha
          simp at ha
          rw [ha]
        · rw [if_neg hc] at ha
          simp at ha
      · refine ⟨nSubCategory, ?_⟩
        by_cases hc : nSubCategory ∈ t.names ∧ nSales ∈ t.names ∧ nProfit ∈ t.names
        · rw [if_pos hc] at hb
          simp at hb
          rw [hb]
        · rw [if_neg hc] at hb
          simp at hb
    · refine ⟨nRegion, ?_⟩
      by_cases hc : nRegion ∈ t.names ∧ nSales ∈ t.names ∧ nProfit ∈ t.names
      · rw [if_pos hc] at h3
        simp at h3
        rw [h3]
      · rw [if_neg hc] at h3
        simp at h3
  · refine ⟨nState, ?_⟩
    by_cases hc : nState ∈ t.names ∧ nSales ∈ t.names ∧ nProfit ∈ t.names
    · rw [if_pos hc] at h4
      simp at h4
      rw [h4]
    · rw [if_neg hc] at h4
      simp at h4

/-! ## `Date.le` order and fold-min/max lemmas -/

theorem dateLe_refl (a : Date) : Date.le a a := by
  unfold Date.le
  omega

theorem dateLe_trans {a b c : Date} (h1 : Date.le a b) (h2 : Date.le b c) : Date.le a c := by
  unfold Date.le at *
  omega

theorem dateLe_total (a b : Date) : Date.le a b ∨ Date.le b a := by
  unfold Date.le
  omega

theorem minD_le_left (a b : Date) : Date.le (minD a b) a := by
  unfold minD
  by_cases h : Date.le a b
  · rw [if_pos h]
    exact dateLe_refl a
  · rw [if_neg h]
    rcases dateLe_total a b with h1 | h1
    · exact absurd h1 h
    · exact h1

theorem minD_le_right (a b : Date) : Date.le (minD a b) b := by
  unfold minD
  by_cases h : Date.le a b
  · rw [if_pos h]
    exact h
  · rw [if_neg h]
    exact dateLe_refl b

theorem le_maxD_left (a b : Date) : Date.le a (maxD a b) := by
  unfold maxD
  by_cases h : Date.le a b
  · rw [if_pos h]
    exact h
  · rw [if_neg h]
    exact dateLe_refl a

theorem le_maxD_right (a b : Date) : Date.le b (maxD a b) := by
  unfold maxD
  by_cases h : Date.le a b
  · rw [if_pos h]
    exact dateLe_refl b
  · rw [if_neg h]
    rcases dateLe_total a b with h1 | h1
    · exact absurd h1 h
    · exact h1

theorem foldl_minD_le : ∀ (ds : List Date) (d0 d : Date), d ∈ d0 :: ds →
    Date.le (ds.foldl minD d0) d
  | [], d0, d, h => by
    simp at h
    subst h
    exact dateLe_refl _
  | e :: es, d0, d, h => by
    rw [List.foldl_cons]
    rcases List.mem_cons.mp h with h1 | h2
    · subst h1
      exact dateLe_trans
        (foldl_minD_le es (minD d e) (minD d e) (List.mem_cons_self _ _)) (minD_le_left d e)
    · rcases List.mem_cons.mp h2 with h3 | h4
      · subst h3
        exact dateLe_trans
          (foldl_minD_le es (minD d0 d) (minD d0 d) (List.mem_cons_self _ _)) (minD_le_right d0 d)
      · exact foldl_minD_le es (minD d0 e) d (List.mem_cons_of_mem _ h4)

theorem foldl_minD_mem : ∀ (ds : List Date) (d0 : Date), ds.foldl minD d0 ∈ d0 :: ds
  | [], d0 => by simp
  | e :: es, d0 => by
    rw [List.foldl_cons]
    have ih := foldl_minD_mem es (minD d0 e)
    rcases List.mem_cons.mp ih with h1 | h2
    · rw [h1]
      unfold minD
      by_cases h : Date.le d0 e
      · rw [if_pos h]
        exact List.mem_cons_self _ _
      · rw [if_neg h]
        exact List.mem_cons_of_mem _ (List.mem_cons_self _ _)
    · exact List.mem_cons_of_mem _ (List.mem_cons_of_mem _ h2)

theorem le_foldl_maxD : ∀ (ds : List Date) (d0 d : Date), d ∈ d0 :: ds →
    Date.le d (ds.foldl maxD d0)
  | [], d0, d, h => by
    simp at h
    subst h
    exact dateLe_refl _
  | e :: es, d0, d, h => by
    rw [List.foldl_cons]
    rcases List.mem_cons.mp h with h1 | h2
    · subst h1
      exact dateLe_trans (le_maxD_left d e)
        (le_foldl_maxD es (maxD d e) (maxD d e) (List.mem_cons_self _ _))
    · rcases List.mem_cons.mp h2 with h3 | h4
      · subst h3
        exact dateLe_trans (le_maxD_right d0 d)
          (le_foldl_maxD es (maxD d0 d) (maxD d0 d) (List.mem_cons_self _ _))
      · exact le_foldl_maxD es (maxD d0 e) d (List.mem_cons_of_mem _ h4)

theorem foldl_maxD_mem : ∀ (ds : List Date) (d0 : Date), ds.foldl maxD d0 ∈ d0 :: ds
  | [], d0 => by simp
  | e :: es, d0 => by
    rw [List.foldl_cons]
    have ih := foldl_maxD_mem es (maxD d0 e)
    rcases List.mem_cons.mp ih with h1 | h2
    · rw [h1]
      unfold maxD
      by_cases h : Date.le d0 e
      · rw [if_pos h]
        exact List.mem_cons_of_mem _ (List.mem_cons_self _ _)
      · rw [if_neg h]
        exact List.mem_cons_self _ _
    · exact List.mem_cons_of_mem _ (List.mem_cons_of_mem _ h2)

/-! ## Idempotence of the cleaner (claim C7 machinery) -/

theorem dateCoerce_idem (c : Cell) : dateCoerce (dateCoerce c) = dateCoerce c := by
  rcases c with _ | v
  · rfl
  rcases v with s | q | d
  · cases h : parseISODate s with
    | none => simp [dateCoerce, h]
    | some d => simp [dateCoerce, h]
  · rfl
  · rfl

theorem numCoerce_idem (c : Cell) : numCoerce (numCoerce c) = numCoerce c := by
  rcases c with _ | v
  · rfl
  rcases v with s | q | d
  · cases h : parseNum s with
    | none => simp [numCoerce, h]
    | some q => simp [numCoerce, h]
  · rfl
  · rfl

theorem stringifyCell_idem (c : Cell) : stringifyCell (stringifyCell c) = stringifyCell c := by
  unfold stringifyCell
  have h : cellToString (some (Val.vStr (strip (cellToString c)))) = strip (cellToString c) := rfl
  rw [h, strip_idem]

theorem colStep_fn_idem (n : String) (dt : Dtype) (c : Cell) :
    (colStep n dt).1 ((colStep n dt).1 c) = (colStep n dt).1 c := by
  unfold colStep
  split_ifs
  · exact dateCoerce_idem c
  · exact numCoerce_idem c
  · exact stringifyCell_idem c
  · rfl

theorem colStep_snd_idem (n : String) (dt : Dtype) :
    colStep n (colStep n dt).2 = colStep n dt := by
  unfold colStep
  by_cases hd : hasDateName n
  · simp [hd]
  by_cases hn : n ∈ numericCols
  · simp [hd, hn]
  by_cases ho : dt = Dtype.obj
  · simp [hd, hn, ho]
  · simp [hd, hn, ho]

theorem mkSteps_snd_idem : ∀ (ns : List String) (ds : List Dtype),
    mkSteps ns ((mkSteps ns ds).map (fun s => s.2)) = mkSteps ns ds
  | [], _ => rfl
  | _ :: _, [] => rfl
  | n :: ns, d :: ds => by
    simp only [mkSteps, List.zip_cons_cons, List.map_cons]
    rw [colStep_snd_idem]
    have ih := mkSteps_snd_idem ns ds
    simp only [mkSteps] at ih
    rw [ih]

theorem applySteps_idem :
    ∀ (steps : List ((Cell → Cell) × Dtype)),
      (∀ s ∈ steps, ∀ c, s.1 (s.1 c) = s.1 c) →
      ∀ r, applySteps steps (applySteps steps r) = applySteps steps r
  | [], _, r => rfl
  | s :: ss, h, [] => rfl
  | s :: ss, h, c :: r => by
    simp only [applySteps, List.zipWith_cons_cons]
    rw [h s (List.mem_cons_self s ss) c]
    have ih := applySteps_idem ss (fun x hx => h x (List.mem_cons_of_mem s hx)) r
    simp only [applySteps] at ih
    rw [ih]

theorem mkSteps_fn_idem (ns : List String) (ds : List Dtype) :
    ∀ s ∈ mkSteps ns ds, ∀ c, s.1 (s.1 c) = s.1 c := by
  intro s hs c
  unfold mkSteps at hs
  simp only [List.mem_map] at hs
  obtain ⟨p, _, rfl⟩ := hs
  exact colStep_fn_idem p.1 p.2 c

theorem mem_dropEssential (ns : List String) (rows : List (List Cell)) (r : List Cell)
    (h : r ∈ dropEssential ns rows) : r ∈ rows := by
  unfold dropEssential at h
  by_cases hess : essPresent ns = []
  · rwa [if_pos hess] at h
  · rw [if_neg hess] at h
    exact List.mem_of_mem_filter h

theorem dropEssential_nodup (ns : List String) (rows : List (List Cell))
    (h : rows.Nodup) : (dropEssential ns rows).Nodup := by
  unfold dropEssential
  by_cases hess : essPresent ns = []
  · rwa [if_pos hess]
  · rw [if_neg hess]
    exact h.filter _

theorem dropEssential_idem (ns : List String) (rows : List (List Cell)) :
    dropEssential ns (dropEssential ns rows) = dropEssential ns rows := by
  unfold dropEssential
  by_cases hess : essPresent ns = []
  · rw [if_pos hess, if_pos hess]
  · rw [if_neg hess, if_neg hess]
    apply List.filter_eq_self.mpr
    intro r hr
    exact (List.mem_filter.mp hr).2

theorem basic_clean_eq (t : Table) :
    basic_clean t = Table.mk (t.names.map strip)
      ((mkSteps (t.names.map strip) t.dtypes).map (fun s => s.2))
      (dropEssential (t.names.map strip)
        (dedup (t.rows.map (fun r => applySteps (mkSteps (t.names.map strip) t.dtypes) r)))) :=
  rfl

theorem basic_clean_idem (t : Table) : basic_clean (basic_clean t) = basic_clean t := by
  rw [basic_clean_eq t, basic_clean_eq]
  simp only
  have hnames : (t.names.map strip).map strip = t.names.map strip := by
    rw [List.map_map]
    exact List.map_congr_left (fun a _ => strip_idem a)
  rw [hnames, mkSteps_snd_idem]
  have hrows : (dropEssential (t.names.map strip)
      (dedup (t.rows.map (fun r => applySteps (mkSteps (t.names.map strip) t.dtypes) r)))).map
        (fun r => applySteps (mkSteps (t.names.map strip) t.dtypes) r)
      = dropEssential (t.names.map strip)
        (dedup (t.rows.map (fun r => applySteps (mkSteps (t.names.map strip) t.dtypes) r))) := by
    have hid : ∀ r ∈ dropEssential (t.names.map strip)
        (dedup (t.rows.map (fun r => applySteps (mkSteps (t.names.map strip) t.dtypes) r))),
        applySteps (mkSteps (t.names.map strip) t.dtypes) r = r := by
      intro r hr
      have hr1 := dedup_subset _ _ (mem_dropEssential _ _ r hr)
      simp only [List.mem_map] at hr1
      obtain ⟨r0, _, rfl⟩ := hr1
      exact applySteps_idem _ (mkSteps_fn_idem _ _) r0
    calc _ = (dropEssential (t.names.map strip)
          (dedup (t.rows.map (fun r => applySteps (mkSteps (t.names.map strip) t.dtypes) r)))).map id := List.map_congr_left hid
      _ = _ := List.map_id _
  rw [hrows]
  have hnodup : (dropEssential (t.names.map strip)
      (dedup (t.rows.map (fun r => applySteps (mkSteps (t.names.map strip) t.dtypes) r)))).Nodup :=
    dropEssential_nodup _ _ (dedup_nodup _)
  rw [dedup_eq_self_of_nodup _ hnodup, dropEssential_idem]

/-! ## Zip/all characterisation of the essential-row filter (claim C5 machinery) -/

theorem zip_all_iff (q : String → Bool) :
    ∀ (ns : List String) (r : List Cell), r.length = ns.length →
      ((ns.zip r).all (fun p => !(q p.1) || p.2.isSome) = true ↔
        ∀ (j : ℕ) (hj : j < ns.length), q (ns.get ⟨j, hj⟩) = true →
          (r.getD j none).isSome = true)
  | [], r, hr => by simp
  | n :: ns, [], hr => by simp at hr
  | n :: ns, c :: r, hr => by
    have hlen : r.length = ns.length := by simpa using hr
    have ih := zip_all_iff q ns r hlen
    simp only [List.zip_cons_cons, List.all_cons, Bool.and_eq_true, Bool.or_eq_true,
      Bool.not_eq_true']
    constructor
    · rintro ⟨h0, hrest⟩ j hj hq
      cases j with
      | zero =>
        simp only [List.getD_cons_zero]
        have hqn : q n = true := hq
        rcases h0 with h0 | h0
        · rw [hqn] at h0
          cases h0
        · exact h0
      | succ j' =>
        simp only [List.getD_cons_succ]
        exact (ih.mp hrest) j' (by simpa using hj) hq
    · intro hall
      constructor
      · by_cases hq : q n
        · right
          have h0 := hall 0 (by simp) hq
          simpa using h0
        · left
          simpa using hq
      · apply ih.mpr
        intro j hj hq
        have hs := hall (j + 1) (by simpa using hj) hq
        simpa using hs

/-! ## Claim theorems -/

/-- Claim C4: the loader fails with a file-not-found error for every path that
does not exist; it fails with an unsupported-format error for every existing
path whose lower-cased extension is outside the accepted set; and for an
existing `.txt` path the unsupported-format failure is raised regardless of
any file contents, i.e. before any reading happens. -/
theorem spec_c4_loader_errors :
    (∀ f : InputFile, f.pathExists = false → load_data f = Except.error LoadError.notFound)
    ∧ (∀ f : InputFile, f.pathExists = true →
        extLower f ∉ [".csv", ".xlsx", ".xls"] →
        load_data f = Except.error LoadError.unsupported)
    ∧ (∀ f : InputFile, f.pathExists = true → f.suffix = ".txt" →
        load_data f = Except.error LoadError.unsupported) := by
  have hmain : ∀ f : InputFile, f.pathExists = true →
      extLower f ∉ [".csv", ".xlsx", ".xls"] →
      load_data f = Except.error LoadError.unsupported := by
    intro f hex hni
    have h1 : ¬ extLower f = ".csv" := fun hc => hni (by rw [hc]; simp)
    have h2 : ¬ extLower f = ".xlsx" := fun hc => hni (by rw [hc]; simp)
    have h3 : ¬ extLower f = ".xls" := fun hc => hni (by rw [hc]; simp)
    unfold load_data
    rw [hex]
    rw [if_neg (by simp), if_neg h1, if_neg (by simp [h2, h3])]
  refine ⟨?_, hmain, ?_⟩
  · intro f h
    unfold load_data
    rw [h]
    simp
  · intro f hex hsuf
    apply hmain f hex
    have hlow : extLower f = ".txt" := by
      unfold extLower
      rw [hsuf]
      decide
    rw [hlow]
    decide

/-- Witness for C4: each loader failure mode exercised on a concrete path. -/
theorem spec_c4_loader_errors_witness :
    load_data (InputFile.mk false (".csv") (Table.mk [] [] []) none (Table.mk [] [] []))
      = Except.error LoadError.notFound
    ∧ load_data (InputFile.mk true (".pdf") (Table.mk [] [] []) none (Table.mk [] [] []))
      = Except.error LoadError.unsupported
    ∧ load_data (InputFile.mk true (".txt") (Table.mk [] [] []) none (Table.mk [] [] []))
      = Except.error LoadError.unsupported :=
  ⟨spec_c4_loader_errors.1 _ rfl,
   spec_c4_loader_errors.2.1 _ rfl (by decide),
   spec_c4_loader_errors.2.2 _ rfl rfl⟩

/-- Claim C9: for every existing Excel input (lower-cased extension `.xlsx` or
`.xls`) the loader returns the "Orders" sheet when reading it succeeds, and
otherwise falls back to the default sheet, never raising. -/
theorem spec_c9_excel_fallback (f : InputFile) (hex : f.pathExists = true)
    (hxl : extLower f = ".xlsx" ∨ extLower f = ".xls") :
    load_data f = Except.ok (f.excelOrders.getD f.excelDefault) := by
  unfold load_data
  rw [hex]
  have hcsv : ¬ extLower f = ".csv" := by
    rcases hxl with h | h <;> rw [h] <;> decide
  rw [if_neg (by simp), if_neg hcsv, if_pos hxl]
  rcases ho : f.excelOrders with _ | t
  · simp
  · simp

/-- Witness for C9: an existing `.xlsx` path whose "Orders" read fails loads
the default sheet. -/
theorem spec_c9_excel_fallback_witness :
    load_data (InputFile.mk true (".xlsx") (Table.mk [] [] []) none
        (Table.mk [nSales] [Dtype.num] []))
      = Except.ok (Table.mk [nSales] [Dtype.num] []) :=
  spec_c9_excel_fallback _ rfl (Or.inl (by decide))

/-- Claim C7: the cleaner is idempotent on row count: cleaning the cleaner's
own output leaves the number of rows unchanged (in fact the whole table). -/
theorem spec_c7_clean_idempotent (t : Table) :
    (basic_clean (basic_clean t)).rows.length = (basic_clean t).rows.length := by
  rw [basic_clean_idem]

/-- Claim C2: every group table produced by the aggregator is sorted by summed
Sales in descending order: each row's Sales is at most the previous row's. -/
theorem spec_c2_group_tables_sorted (t : Table) (pr : String × List GroupRow)
    (hpr : pr ∈ (aggregates t).1) (i : ℕ) (h : i + 1 < pr.2.length) :
    (pr.2.getD (i + 1) gdefault).sales ≤ (pr.2.getD i gdefault).sales := by
  obtain ⟨k, hk⟩ := groupTables_cases t pr hpr
  have hsort : List.Sorted salesGE pr.2 := by
    rw [hk]
    exact aggrOn_sorted t k
  have h0 : i < pr.2.length := Nat.lt_of_succ_lt h
  rw [List.getD_eq_getElem pr.2 gdefault h, List.getD_eq_getElem pr.2 gdefault h0]
  have := hsort.rel_get_of_lt (a := ⟨i, h0⟩) (b := ⟨i + 1, h⟩) (by simp)
  simpa [salesGE] using this

/-- Witness for C2: the two-category table gives a by-category group table
whose second row has Sales at most the first row's. -/
theorem spec_c2_group_tables_sorted_witness :
    ("by_category", aggrOn wtC2 nCategory) ∈ (aggregates wtC2).1
    ∧ 0 + 1 < (aggrOn wtC2 nCategory).length
    ∧ ((aggrOn wtC2 nCategory).getD (0 + 1) gdefault).sales
        ≤ ((aggrOn wtC2 nCategory).getD 0 gdefault).sales := by
  have hmem : ("by_category", aggrOn wtC2 nCategory) ∈ (aggregates wtC2).1 := by
    have h : (aggregates wtC2).1 = [("by_category", aggrOn wtC2 nCategory)] := rfl
    rw [h]
    exact List.mem_singleton.mpr rfl
  have hlen : (aggrOn wtC2 nCategory).length = 2 := by
    rw [aggrOn, (List.perm_insertionSort salesGE (groupsOn wtC2 nCategory)).length_eq]
    decide
  have hbound : 0 + 1 < (aggrOn wtC2 nCategory).length := by
    rw [hlen]
    omega
  exact ⟨hmem, hbound, spec_c2_group_tables_sorted wtC2 _ hmem 0 hbound⟩

/-- Claim C3: whenever the top-products table is produced it has at most 10
rows, equals the first 10 rows of the per-Product-Name aggregation sorted by
Sales descending (truncation strictly after the sort), and is itself sorted. -/
theorem spec_c3_top_products (t : Table) (L : List GroupRow)
    (h : (aggregates t).2.2 = some L) :
    L.length ≤ 10
    ∧ L = (List.insertionSort salesGE (groupsOn t nProductName)).take 10
    ∧ List.Sorted salesGE L := by
  have h' : topProducts t = some L := h
  unfold topProducts at h'
  by_cases hc : nProductName ∈ t.names ∧ nSales ∈ t.names ∧ nProfit ∈ t.names
  · rw [if_pos hc] at h'
    have hL : L = (aggrOn t nProductName).take 10 := by
      injection h' with h''
      exact h''.symm
    refine ⟨?_, ?_, ?_⟩
    · rw [hL, List.length_take]
      exact Nat.min_le_left _ _
    · rw [hL]
      rfl
    · rw [hL]
      exact List.Pairwise.sublist (List.take_sublist _ _) (aggrOn_sorted t nProductName)
  · rw [if_neg hc] at h'
    cases h'

/-- Witness for C3: the one-product table produces a top-products table and
the theorem's conclusions hold for it. -/
theorem spec_c3_top_products_witness :
    (aggregates wtC3).2.2
      = some ((List.insertionSort salesGE (groupsOn wtC3 nProductName)).take 10)
    ∧ (((List.insertionSort salesGE (groupsOn wtC3 nProductName)).take 10).length ≤ 10
    ∧ (List.insertionSort salesGE (groupsOn wtC3 nProductName)).take 10
        = (List.insertionSort salesGE (groupsOn wtC3 nProductName)).take 10
    ∧ List.Sorted salesGE ((List.insertionSort salesGE (groupsOn wtC3 nProductName)).take 10)) :=
  have h : (aggregates wtC3).2.2
      = some ((List.insertionSort salesGE (groupsOn wtC3 nProductName)).take 10) := rfl
  ⟨h, spec_c3_top_products wtC3 _ h⟩

/-- Claim C5: the cleaner's final row-filtering step keeps exactly the rows
that have a value in every present essential column (Order Date, Sales,
Profit), and when none of the three columns exists it drops nothing. -/
theorem spec_c5_essential_row_filter (ns : List String) (rows : List (List Cell))
    (hwf : ∀ r ∈ rows, r.length = ns.length) :
    dropEssential ns rows = rows.filter (fun r =>
      decide (∀ (j : ℕ) (hj : j < ns.length), ns.get ⟨j, hj⟩ ∈ essNames →
        (r.getD j none).isSome = true))
    ∧ ((nOrderDate ∉ ns ∧ nSales ∉ ns ∧ nProfit ∉ ns) → dropEssential ns rows = rows) := by
  constructor
  · by_cases hess : essPresent ns = []
    · rw [dropEssential, if_pos hess]
      have hnone : ∀ c ∈ essNames, c ∉ ns := by
        intro c hc hcn
        have : c ∈ essPresent ns := by
          unfold essPresent
          exact List.mem_filter.mpr ⟨hc, by simpa using hcn⟩
        rw [hess] at this
        cases this
      symm
      apply List.filter_eq_self.mpr
      intro r _
      apply decide_eq_true
      intro j hj hmem
      exact absurd (List.get_mem ns j hj) (hnone _ hmem)
    · rw [dropEssential, if_neg hess]
      apply List.filter_congr
      intro r hr
      have hiff := zip_all_iff (fun s => decide (s ∈ essPresent ns)) ns r (hwf r hr)
      have hmemiff : ∀ (j : ℕ) (hj : j < ns.length),
          (ns.get ⟨j, hj⟩ ∈ essPresent ns ↔ ns.get ⟨j, hj⟩ ∈ essNames) := by
        intro j hj
        unfold essPresent
        rw [List.mem_filter]
        constructor
        · exact fun hh => hh.1
        · intro hh
          exact ⟨hh, by simpa using List.get_mem ns j hj⟩
      rcases hcode : (ns.zip r).all (fun p => !(decide (p.1 ∈ essPresent ns)) || p.2.isSome) with _ | _
      · symm
        apply decide_eq_false
        intro hspec
        have : (ns.zip r).all (fun p => !(decide (p.1 ∈ essPresent ns)) || p.2.isSome) = true := by
          apply hiff.mpr
          intro j hj hq
          exact hspec j hj ((hmemiff j hj).mp (of_decide_eq_true hq))
        rw [hcode] at this
        cases this
      · symm
        apply decide_eq_true
        intro j hj hmem
        exact hiff.mp hcode j hj (decide_eq_true ((hmemiff j hj).mpr hmem))
  · rintro ⟨h1, h2, h3⟩
    have hess : essPresent ns = [] := by
      unfold essPresent essNames
      simp [h1, h2, h3]
    rw [dropEssential, if_pos hess]

/-- Witness for C5: a one-column Sales table keeps exactly its non-null row. -/
theorem spec_c5_essential_row_filter_witness :
    dropEssential [nSales] wtC5rows = wtC5rows.filter (fun r =>
      decide (∀ (j : ℕ) (hj : j < ([nSales] : List String).length),
        ([nSales] : List String).get ⟨j, hj⟩ ∈ essNames →
        (r.getD j none).isSome = true))
    ∧ ((nOrderDate ∉ ([nSales] : List String) ∧ nSales ∉ ([nSales] : List String)
        ∧ nProfit ∉ ([nSales] : List String)) →
        dropEssential [nSales] wtC5rows = wtC5rows) :=
  spec_c5_essential_row_filter [nSales] wtC5rows (by decide)

theorem getD_of_le {α : Type} (l : List α) (i : ℕ) (d : α) (h : l.length ≤ i) :
    l.getD i d = d := by
  rw [List.getD_eq_getElem?_getD, List.getElem?_eq_none h]
  rfl

theorem colStep_obj (n : String) (dt : Dtype) (h : (colStep n dt).2 = Dtype.obj) :
    (colStep n dt).1 = stringifyCell := by
  unfold colStep at h ⊢
  by_cases h1 : hasDateName n
  · rw [if_pos h1] at h
    exact absurd h (by decide)
  rw [if_neg h1] at h ⊢
  by_cases h2 : n ∈ numericCols
  · rw [if_pos h2] at h
    exact absurd h (by decide)
  rw [if_neg h2] at h ⊢
  by_cases h3 : dt = Dtype.obj
  · rw [if_pos h3]
  · rw [if_neg h3] at h
    exact absurd h h3

/-- Claim C1: ProfitMargin is null exactly when Sales is zero and is
Profit / Sales otherwise — at the cell level of the feature deriver, in every
group table, in the top-products table, and end-to-end in the deriver's
ProfitMargin column. -/
theorem spec_c1_profit_margin :
    (∀ s p : ℚ, pmCell (some (Val.vNum s)) (some (Val.vNum p))
        = if s = 0 then none else some (Val.vNum (p / s)))
    ∧ (∀ (t : Table) (pr : String × List GroupRow), pr ∈ (aggregates t).1 → ∀ g ∈ pr.2,
        g.margin = if g.sales = 0 then none else some (g.profit / g.sales))
    ∧ (∀ (t : Table) (L : List GroupRow), (aggregates t).2.2 = some L → ∀ g ∈ L,
        g.margin = if g.sales = 0 then none else some (g.profit / g.sales))
    ∧ (∀ t : Table, t.Wf → ∀ i, i < t.rows.length → nSales ∈ t.names → nProfit ∈ t.names →
        getCellByName (feature_engineering t) i nProfitMargin
          = pmCell (getCellByName t i nSales) (getCellByName t i nProfit)) := by
  refine ⟨?_, ?_, ?_, ?_⟩
  · intro s p
    by_cases hs : s = 0
    · simp [pmCell, hs]
    · simp [pmCell, hs]
  · intro t pr hpr g hg
    obtain ⟨k, hk⟩ := groupTables_cases t pr hpr
    rw [hk] at hg
    exact aggrOn_margin t k g hg
  · intro t L hL g hg
    have h' : topProducts t = some L := hL
    unfold topProducts at h'
    by_cases hc : nProductName ∈ t.names ∧ nSales ∈ t.names ∧ nProfit ∈ t.names
    · rw [if_pos hc] at h'
      injection h' with h''
      rw [← h''] at hg
      exact aggrOn_margin t nProductName g (List.mem_of_mem_take hg)
    · rw [if_neg hc] at h'
      cases h'
  · intro t hwf i hi hs hp
    obtain ⟨hwf1, hlen1, hmem1, hcell1⟩ := feStage1_props t hwf
    obtain ⟨hwf2, hlen2, hmem2, hcell2⟩ := feStage2_props (feStage1 t) hwf1
    have hi1 : i < (feStage1 t).rows.length := by
      rw [hlen1]
      exact hi
    have hi2 : i < (feStage2 (feStage1 t)).rows.length := by
      rw [hlen2]
      exact hi1
    have hs2 : nSales ∈ (feStage2 (feStage1 t)).names := hmem2 _ (hmem1 _ hs)
    have hp2 : nProfit ∈ (feStage2 (feStage1 t)).names := hmem2 _ (hmem1 _ hp)
    have hfin := feStage3_margin (feStage2 (feStage1 t)) hwf2 hs2 hp2 i hi2
    have hcS : getCellByName (feStage2 (feStage1 t)) i nSales = getCellByName t i nSales := by
      rw [hcell2 i hi1 nSales (by decide), hcell1 i hi nSales (by decide) (by decide)]
    have hcP : getCellByName (feStage2 (feStage1 t)) i nProfit = getCellByName t i nProfit := by
      rw [hcell2 i hi1 nProfit (by decide), hcell1 i hi nProfit (by decide) (by decide)]
    show getCellByName (feStage3 (feStage2 (feStage1 t))) i nProfitMargin = _
    rw [hfin, hcS, hcP]

/-- Witness for C1: zero Sales yields a null margin; the one-group table's
margin has the guarded form; the deriver writes `pmCell` of Sales and Profit. -/
theorem spec_c1_profit_margin_witness :
    pmCell (some (Val.vNum 0)) (some (Val.vNum 5)) = none
    ∧ ((aggrOn wtC1 nCategory).getD 0 gdefault).margin
        = (if ((aggrOn wtC1 nCategory).getD 0 gdefault).sales = 0 then none
           else some (((aggrOn wtC1 nCategory).getD 0 gdefault).profit
             / ((aggrOn wtC1 nCategory).getD 0 gdefault).sales))
    ∧ getCellByName (feature_engineering wtC1) 0 nProfitMargin
        = pmCell (getCellByName wtC1 0 nSales) (getCellByName wtC1 0 nProfit) := by
  refine ⟨?_, ?_, ?_⟩
  · have h := spec_c1_profit_margin.1 0 5
    simpa using h
  · have hmem : ("by_category", aggrOn wtC1 nCategory) ∈ (aggregates wtC1).1 := by
      have h : (aggregates wtC1).1 = [("by_category", aggrOn wtC1 nCategory)] := rfl
      rw [h]
      exact List.mem_singleton.mpr rfl
    have hlen : (aggrOn wtC1 nCategory).length = 1 := by
      rw [aggrOn, (List.perm_insertionSort salesGE (groupsOn wtC1 nCategory)).length_eq]
      decide
    have hg : (aggrOn wtC1 nCategory).getD 0 gdefault ∈ aggrOn wtC1 nCategory := by
      apply getD_mem_of_lt
      rw [hlen]
      omega
    exact spec_c1_profit_margin.2.1 wtC1 _ hmem _ hg
  · exact spec_c1_profit_margin.2.2.2 wtC1 (by decide) 0 (by decide) (by decide) (by decide)

/-- Claim C6: overall_profit_margin is present iff Sales and Profit exist and
the Sales sum is non-zero, and then equals the quotient of the sums;
date_range is present iff Order Date exists with a non-null value, and its
two components are the ISO-formatted minimum and maximum order dates.  The
Order Date column is assumed date-typed, as the pipeline guarantees. -/
theorem spec_c6_kpis (t : Table)
    (hdt : ∀ c ∈ colCells t nOrderDate, isDateCell c = true) :
    ((compute_kpis t).overall_profit_margin ≠ none ↔
      (nSales ∈ t.names ∧ nProfit ∈ t.names ∧ colSum t nSales ≠ 0))
    ∧ (∀ q, (compute_kpis t).overall_profit_margin = some q →
        q = colSum t nProfit / colSum t nSales)
    ∧ ((compute_kpis t).date_range ≠ none ↔
        (nOrderDate ∈ t.names ∧ ∃ c ∈ colCells t nOrderDate, c.isSome = true))
    ∧ (∀ a b, (compute_kpis t).date_range = some (a, b) →
        ∃ dmin dmax, dmin ∈ datesOf t nOrderDate ∧ dmax ∈ datesOf t nOrderDate
          ∧ (∀ d ∈ datesOf t nOrderDate, Date.le dmin d ∧ Date.le d dmax)
          ∧ a = isoFormat dmin ∧ b = isoFormat dmax) := by
  have hopm : (compute_kpis t).overall_profit_margin
      = if nSales ∈ t.names ∧ nProfit ∈ t.names ∧ colSum t nSales ≠ 0 then
          some (colSum t nProfit / colSum t nSales)
        else none := rfl
  have hdr : (compute_kpis t).date_range = dateRangeOf t := rfl
  have hnonempty : (nOrderDate ∈ t.names
        ∧ (colCells t nOrderDate).any (fun c => c.isSome) = true) →
      datesOf t nOrderDate ≠ [] := by
    rintro ⟨_, hany⟩
    obtain ⟨c, hc, hcs⟩ := List.any_eq_true.mp hany
    have hd := hdt c hc
    rcases c with _ | v
    · cases hcs
    rcases v with s | q | d
    · cases hd
    · cases hd
    · have : d ∈ datesOf t nOrderDate := by
        unfold datesOf
        apply List.mem_filterMap.mpr
        exact ⟨some (Val.vDate d), hc, rfl⟩
      intro hnil
      rw [hnil] at this
      cases this
  refine ⟨?_, ?_, ?_, ?_⟩
  · rw [hopm]
    by_cases hC : nSales ∈ t.names ∧ nProfit ∈ t.names ∧ colSum t nSales ≠ 0
    · rw [if_pos hC]
      simp [hC]
    · rw [if_neg hC]
      simp [hC]
  · intro q hq
    rw [hopm] at hq
    by_cases hC : nSales ∈ t.names ∧ nProfit ∈ t.names ∧ colSum t nSales ≠ 0
    · rw [if_pos hC] at hq
      injection hq with h
      exact h.symm
    · rw [if_neg hC] at hq
      cases hq
  · rw [hdr]
    unfold dateRangeOf
    by_cases hC : nOrderDate ∈ t.names
        ∧ (colCells t nOrderDate).any (fun c => c.isSome) = true
    · rw [if_pos hC]
      have hne := hnonempty hC
      rcases hds : datesOf t nOrderDate with _ | ⟨d0, ds⟩
      · exact absurd hds hne
      · simp only [ne_eq, reduceCtorEq, not_false_eq_true, true_iff]
        exact ⟨hC.1, List.any_eq_true.mp hC.2⟩
    · rw [if_neg hC]
      simp only [ne_eq, not_true_eq_false, false_iff]
      intro hR
      exact hC ⟨hR.1, List.any_eq_true.mpr hR.2⟩
  · intro a b hab
    rw [hdr] at hab
    unfold dateRangeOf at hab
    by_cases hC : nOrderDate ∈ t.names
        ∧ (colCells t nOrderDate).any (fun c => c.isSome) = true
    · rw [if_pos hC] at hab
      rcases hds : datesOf t nOrderDate with _ | ⟨d0, ds⟩
      · rw [hds] at hab
        cases hab
      · rw [hds] at hab
        injection hab with hab'
        have ha : a = isoFormat (ds.foldl minD d0) := (congrArg Prod.fst hab').symm
        have hb : b = isoFormat (ds.foldl maxD d0) := (congrArg Prod.snd hab').symm
        refine ⟨ds.foldl minD d0, ds.foldl maxD d0, ?_, ?_, ?_, ha, hb⟩
        · exact foldl_minD_mem ds d0
        · exact foldl_maxD_mem ds d0
        · intro d hd
          exact ⟨foldl_minD_le ds d0 d hd, le_foldl_maxD ds d0 d hd⟩
    · rw [if_neg hC] at hab
      cases hab

/-- Witness for C6: the concrete date-typed table satisfies the hypothesis and
the KPI presence/format conclusions. -/
theorem spec_c6_kpis_witness :
    (∀ c ∈ colCells wtC6 nOrderDate, isDateCell c = true)
    ∧ (((compute_kpis wtC6).overall_profit_margin ≠ none ↔
        (nSales ∈ wtC6.names ∧ nProfit ∈ wtC6.names ∧ colSum wtC6 nSales ≠ 0))
    ∧ (∀ q, (compute_kpis wtC6).overall_profit_margin = some q →
        q = colSum wtC6 nProfit / colSum wtC6 nSales)
    ∧ ((compute_kpis wtC6).date_range ≠ none ↔
        (nOrderDate ∈ wtC6.names ∧ ∃ c ∈ colCells wtC6 nOrderDate, c.isSome = true))
    ∧ (∀ a b, (compute_kpis wtC6).date_range = some (a, b) →
        ∃ dmin dmax, dmin ∈ datesOf wtC6 nOrderDate ∧ dmax ∈ datesOf wtC6 nOrderDate
          ∧ (∀ d ∈ datesOf wtC6 nOrderDate, Date.le dmin d ∧ Date.le d dmax)
          ∧ a = isoFormat dmin ∧ b = isoFormat dmax)) :=
  ⟨by decide, spec_c6_kpis wtC6 (by decide)⟩

/-- Claim C10: after cleaning, every object-typed column holds only strings —
nulls were stringified (`str(nan) = "nan"`), so the column has no missing
values and the data dictionary counts zero missing for it. -/
theorem spec_c10_text_no_nulls (t : Table) (hwf : t.Wf) (j : ℕ)
    (hdt : (basic_clean t).dtypes.getD j Dtype.num = Dtype.obj) :
    (∀ r ∈ (basic_clean t).rows, ∃ s, r.getD j none = some (Val.vStr s))
    ∧ nMissing (basic_clean t) j = 0
    ∧ stringifyCell none = some (Val.vStr ("nan")) := by
  have hdts : (basic_clean t).dtypes
      = (mkSteps (t.names.map strip) t.dtypes).map (fun s => s.2) := rfl
  have hziplen : ((t.names.map strip).zip t.dtypes).length = t.names.length := by
    rw [List.length_zip, List.length_map, hwf.1]
    exact Nat.min_self _
  have hsteplen : (mkSteps (t.names.map strip) t.dtypes).length = t.names.length := by
    unfold mkSteps
    rw [List.length_map]
    exact hziplen
  have hjlt : j < t.names.length := by
    by_contra hge
    push_neg at hge
    rw [hdts] at hdt
    rw [getD_of_le _ j Dtype.num (by rw [List.length_map, hsteplen]; exact hge)] at hdt
    cases hdt
  have hstep : (mkSteps (t.names.map strip) t.dtypes).getD j (id, Dtype.num)
      = colStep (((t.names.map strip).zip t.dtypes).getD j ("", Dtype.num)).1
          (((t.names.map strip).zip t.dtypes).getD j ("", Dtype.num)).2 := by
    unfold mkSteps
    exact getD_map _ _ j _ ("", Dtype.num) (by rw [hziplen]; exact hjlt)
  have hdtj : ((mkSteps (t.names.map strip) t.dtypes).getD j (id, Dtype.num)).2
      = Dtype.obj := by
    rw [hdts] at hdt
    rw [← hdt]
    exact (getD_map (fun s => s.2) _ j Dtype.num (id, Dtype.num)
      (by rw [hsteplen]; exact hjlt)).symm
  have hfn : ((mkSteps (t.names.map strip) t.dtypes).getD j (id, Dtype.num)).1
      = stringifyCell := by
    rw [hstep] at hdtj ⊢
    exact colStep_obj _ _ hdtj
  have hcells : ∀ r ∈ (basic_clean t).rows, ∃ s, r.getD j none = some (Val.vStr s) := by
    intro r hr
    have hr1 : r ∈ t.rows.map
        (fun r => applySteps (mkSteps (t.names.map strip) t.dtypes) r) :=
      dedup_subset _ _ (mem_dropEssential _ _ r hr)
    simp only [List.mem_map] at hr1
    obtain ⟨r0, hr0, rfl⟩ := hr1
    have hr0len : r0.length = t.names.length := hwf.2 r0 hr0
    unfold applySteps
    rw [getD_zipWith _ _ _ j none (id, Dtype.num) none
      (by rw [hsteplen]; exact hjlt) (by rw [hr0len]; exact hjlt)]
    rw [hfn]
    exact ⟨strip (cellToString (r0.getD j none)), rfl⟩
  refine ⟨hcells, ?_, ?_⟩
  · unfold nMissing
    rw [List.length_eq_zero]
    apply List.filter_eq_nil.mpr
    intro c hc
    simp only [List.mem_map] at hc
    obtain ⟨r, hr, rfl⟩ := hc
    obtain ⟨s, hs⟩ := hcells r hr
    rw [hs]
    simp
  · decide

/-- Witness for C10: a table with a nullable Region column: after cleaning the
column is object-typed and the conclusions hold. -/
theorem spec_c10_text_no_nulls_witness :
    (basic_clean wtC10).dtypes.getD 0 Dtype.num = Dtype.obj
    ∧ ((∀ r ∈ (basic_clean wtC10).rows, ∃ s, r.getD 0 none = some (Val.vStr s))
    ∧ nMissing (basic_clean wtC10) 0 = 0
    ∧ stringifyCell none = some (Val.vStr ("nan"))) :=
  ⟨by decide, spec_c10_text_no_nulls wtC10 (by decide) 0 (by decide)⟩

/-- Claim C8: on the concrete two-row scenario table, cleaning keeps 2 rows,
OrderMonth is 2023-01-01 and ShipDelayDays is 5 for both rows, the KPIs are
total_sales 150, total_profit 10 and overall_profit_margin 1/15 (≈ 0.0667),
and the by-category group table is the single row Tech with Sales 150 and
Profit 10. -/
theorem spec_c8_scenario :
    sampleClean.rows.length = 2
    ∧ getCellByName sampleFeat 0 nOrderMonth = some (Val.vDate (Date.mk 2023 1 1))
    ∧ getCellByName sampleFeat 1 nOrderMonth = some (Val.vDate (Date.mk 2023 1 1))
    ∧ getCellByName sampleFeat 0 nShipDelayDays = some (Val.vNum 5)
    ∧ getCellByName sampleFeat 1 nShipDelayDays = some (Val.vNum 5)
    ∧ (compute_kpis sampleFeat).total_sales = some 150
    ∧ (compute_kpis sampleFeat).total_profit = some 10
    ∧ (compute_kpis sampleFeat).overall_profit_margin = some (1 / 15)
    ∧ (aggregates sampleFeat).1
        = [("by_category", [GroupRow.mk (Val.vStr ("Tech")) 150 10 (some (1 / 15))])] := by
  have hS : colSum sampleFeat nSales = 150 := by
    have h : colSum sampleFeat nSales = (100 : ℚ) + (50 + 0) := rfl
    rw [h]
    norm_num
  have hP : colSum sampleFeat nProfit = 10 := by
    have h : colSum sampleFeat nProfit = (20 : ℚ) + (-10 + 0) := rfl
    rw [h]
    norm_num
  refine ⟨by decide, by decide, by decide, by decide, by decide, ?_, ?_, ?_, ?_⟩
  · have h : (compute_kpis sampleFeat).total_sales = some (colSum sampleFeat nSales) := rfl
    rw [h, hS]
  · have h : (compute_kpis sampleFeat).total_profit = some (colSum sampleFeat nProfit) := rfl
    rw [h, hP]
  · have hshow : (compute_kpis sampleFeat).overall_profit_margin =
        if nSales ∈ sampleFeat.names ∧ nProfit ∈ sampleFeat.names
            ∧ colSum sampleFeat nSales ≠ 0 then
          some (colSum sampleFeat nProfit / colSum sampleFeat nSales)
        else none := rfl
    rw [hshow, hS, hP]
    rw [if_pos ⟨by decide, by decide, by norm_num⟩]
    norm_num
  · have h : (aggregates sampleFeat).1 =
        [("by_category",
          [GroupRow.mk (Val.vStr ("Tech")) ((100 : ℚ) + (50 + 0)) ((20 : ℚ) + (-10 + 0))
            (if ((100 : ℚ) + (50 + 0)) ≠ 0 then
              some (((20 : ℚ) + (-10 + 0)) / ((100 : ℚ) + (50 + 0)))
            else none)])] := rfl
    rw [h]
    norm_num
